import Mathlib

/-!
Shallow embedding of the String-Analyzer service core
(`strings/utils.py` and `strings/views.py`):

* `computeProperties` — `compute_properties`: derived analysis record of a string;
* the regex machinery and `parse_nl_query` — the natural-language query parser;
* `stringsViewFilter` / `nlGet` — the filtering pipelines of `StringsView.get`
  and `NaturalLanguageFilterView.get`.

Strings are handled as `List Char`; Python `int` is `Int`; a Python dict of
optional filter fields is a structure of `Option` fields; functions that raise
`ValueError` return `Except`.
-/

namespace StringAnalyzer

/-! ### Python character/string primitives -/

/-- The whitespace characters recognised by Python `str.split` / `str.strip`
(ASCII range; the service's queries and stored values are ASCII). -/
def pyIsSpace (c : Char) : Bool :=
  c == ' ' || c == '\t' || c == '\n' || c == '\r' || c == '\x0b' || c == '\x0c'

/-- Python `str.lower` on one character (ASCII case folding). -/
def toLowerPy (c : Char) : Char :=
  if 'A' ≤ c && c ≤ 'Z' then Char.ofNat (c.toNat + 32) else c

/-- Python `str.lower` over a whole string. -/
def pyLowerL (l : List Char) : List Char := l.map toLowerPy

/-- Python `str.strip()`: drop leading and trailing whitespace. -/
def pyStrip (l : List Char) : List Char :=
  ((l.dropWhile pyIsSpace).reverse.dropWhile pyIsSpace).reverse

/-- Helper for `pySplit`: `acc` is the current (reversed) in-progress word. -/
def splitAux : List Char → List Char → List (List Char)
  | [], acc => if acc.isEmpty then [] else [acc.reverse]
  | c :: t, acc =>
    if pyIsSpace c then
      if acc.isEmpty then splitAux t [] else acc.reverse :: splitAux t []
    else
      splitAux t (c :: acc)

/-- Python `str.split()` with no argument: maximal whitespace-free runs. -/
def pySplit (l : List Char) : List (List Char) := splitAux l []

/-- Python substring test `needle in hay` for strings. -/
def pyInB (needle hay : List Char) : Bool :=
  hay.tails.any (fun t => needle.isPrefixOf t)

/-- Regex class `\d`. -/
def isDigitB (c : Char) : Bool := '0' ≤ c && c ≤ '9'

/-- Regex class `\w` (ASCII range). -/
def isWordCharB (c : Char) : Bool :=
  ('a' ≤ c && c ≤ 'z') || ('A' ≤ c && c ≤ 'Z') || isDigitB c || c == '_'

/-- Python `int` applied to a run of decimal digits. -/
def digitsToNat (l : List Char) : Nat :=
  l.foldl (fun a c => 10 * a + (c.toNat - 48)) 0

/-! ### A small regex engine

Just the constructs appearing in the patterns of `parse_nl_query`:
literals, single-character classes, sequencing, alternation of two branches,
`(?:...)?,` `\d+` (greedy one-or-more of a class), `\s*` (greedy
zero-or-more of a class) and one capturing group per pattern. -/

inductive RE where
  | lit : List Char → RE
  | cls : (Char → Bool) → RE
  | seq : RE → RE → RE
  | alt : RE → RE → RE
  | opt : RE → RE
  | plusCls : (Char → Bool) → RE
  | starCls : (Char → Bool) → RE
  | grp : RE → RE

/-- Length of the maximal run of `p`-characters at the head of `l`. -/
def leadCount (p : Char → Bool) : List Char → Nat
  | [] => 0
  | c :: t => if p c then leadCount p t + 1 else 0

/-- All ways a regex can match a prefix of `l`, in Python backtracking
priority order (greedy quantifiers, left alternative first).  Each entry is
`(rest-of-input, group-1 capture)`. -/
def reRuns : RE → List Char → List (List Char × Option (List Char))
  | .lit s, l => if s.isPrefixOf l then [(l.drop s.length, none)] else []
  | .cls p, l =>
    match l with
    | [] => []
    | c :: t => if p c then [(t, none)] else []
  | .seq a b, l =>
    (reRuns a l).flatMap fun pr =>
      (reRuns b pr.1).map fun pr2 => (pr2.1, pr.2 <|> pr2.2)
  | .alt a b, l => reRuns a l ++ reRuns b l
  | .opt a, l => reRuns a l ++ [(l, none)]
  | .plusCls p, l =>
    let k := leadCount p l
    (List.range k).map fun j => (l.drop (k - j), none)
  | .starCls p, l =>
    let k := leadCount p l
    (List.range (k + 1)).map fun j => (l.drop (k - j), none)
  | .grp a, l =>
    (reRuns a l).map fun pr => (pr.1, some (l.take (l.length - pr.1.length)))

/-- `re.search(pattern, l).group(1)`: scan start positions left to right,
return the group-1 capture of the first (highest-priority) match. -/
def reSearch (re : RE) : List Char → Option (List Char)
  | [] =>
    match (reRuns re []).head? with
    | some pr => pr.2
    | none => none
  | c :: t =>
    match (reRuns re (c :: t)).head? with
    | some pr => pr.2
    | none => reSearch re t

/-- Fold a non-empty list of regex pieces into a sequence. -/
def reSeq (l : List RE) : RE := l.foldr RE.seq (.lit [])

/-- A string literal regex piece. -/
def rl (s : String) : RE := .lit s.data

/-! ### The patterns of `parse_nl_query` -/

/-- `(\d+)` as the capture group. -/
def grpDigits : RE := .grp (.plusCls isDigitB)

/-- The `word_patterns` list of `parse_nl_query`, in source order. -/
def wordPatterns : List RE :=
  [ reSeq [grpDigits, rl " word", .opt (rl "s")],
    reSeq [rl "word count", .opt (rl " is"), rl " ", grpDigits],
    reSeq [rl "word count", .opt (rl " of"), rl " ", grpDigits],
    reSeq [rl "with ", grpDigits, rl " word", .opt (rl "s")],
    reSeq [rl "that has ", grpDigits, rl " word", .opt (rl "s")],
    reSeq [rl "having ", grpDigits, rl " word", .opt (rl "s")],
    reSeq [grpDigits, .cls (fun c => c == '-' || c == ' '), rl "word"] ]

/-- `length_patterns['min_length']`, in source order. -/
def minPatterns : List RE :=
  [ reSeq [rl "longer than ", grpDigits,
      .opt (reSeq [.starCls pyIsSpace, rl "character", .opt (rl "s")])],
    reSeq [rl "at least ", grpDigits, rl " character", .opt (rl "s")],
    reSeq [rl "minimum ", .alt (rl "length") (rl "characters"), rl " ",
      .opt (rl "of "), grpDigits],
    reSeq [rl "more than ", grpDigits, rl " character", .opt (rl "s")] ]

/-- `length_patterns['max_length']`, in source order. -/
def maxPatterns : List RE :=
  [ reSeq [rl "shorter than ", grpDigits,
      .opt (reSeq [.starCls pyIsSpace, rl "character", .opt (rl "s")])],
    reSeq [rl "at most ", grpDigits, rl " character", .opt (rl "s")],
    reSeq [rl "maximum ", .alt (rl "length") (rl "characters"), rl " ",
      .opt (rl "of "), grpDigits],
    reSeq [rl "less than ", grpDigits, rl " character", .opt (rl "s")] ]

/-- A single-character class for `["\']`. -/
def isQuoteB (c : Char) : Bool := c == '"' || c == '\''

/-- One `char_patterns` entry: `LEAD (?:the )?(?:letter )?["\']?(\w)["\']?`. -/
def charPattern (lead : String) : RE :=
  reSeq [rl lead, .opt (rl "the "), .opt (rl "letter "), .opt (.cls isQuoteB),
    .grp (.cls isWordCharB), .opt (.cls isQuoteB)]

/-- The `char_patterns` list of `parse_nl_query`, in source order. -/
def charPatterns : List RE :=
  [ charPattern "containing ", charPattern "with ", charPattern "has ",
    charPattern "contains ", charPattern "including " ]

/-- The `for pattern in patterns: ... break` loop: first pattern that has a
match wins, returning its group-1 capture. -/
def findFirstPat : List RE → List Char → Option (List Char)
  | [], _ => none
  | p :: rest, l =>
    match reSearch p l with
    | some c => some c
    | none => findFirstPat rest l

/-! ### `parse_nl_query` -/

/-- The filter dictionary assembled by `parse_nl_query` (and consumed by the
two listing views): each Python dict key becomes an optional field. -/
structure Filters where
  is_palindrome : Option Bool
  word_count : Option Int
  min_length : Option Int
  max_length : Option Int
  contains_character : Option String
deriving DecidableEq

/-- The dict with no key set. -/
def emptyFilters : Filters := ⟨none, none, none, none, none⟩

/-- Failure modes of `parse_nl_query` (both raise `ValueError` in Python):
an empty/whitespace-only query, or no recognised clause — the latter carrying
the fixed example-phrasing list. -/
inductive ParseErr where
  | emptyQuery : ParseErr
  | noMatch : List String → ParseErr
deriving DecidableEq

/-- The fixed `suggestions` list of `parse_nl_query`. -/
def suggestions : List String :=
  [ "palindrome strings",
    "strings with 3 words",
    "strings longer than 5 characters",
    "strings containing the letter a",
    "strings with word count 2" ]

/-- The clause-extraction phase of `parse_nl_query`, applied to the
lower-cased, stripped query text. -/
def extractFilters (ql : List Char) : Filters :=
  let pal :=
    if ["palindrome", "palindromes", "palindromic"].any
        (fun w => pyInB w.data ql) then some true else none
  let wc := (findFirstPat wordPatterns ql).map
    (fun d => (digitsToNat d : Int))
  let minL := (findFirstPat minPatterns ql).map
    (fun d => (digitsToNat d : Int) + 1)
  let maxL := (findFirstPat maxPatterns ql).map
    (fun d => (digitsToNat d : Int) - 1)
  let cc := (findFirstPat charPatterns ql).map
    (fun d => String.mk d)
  ⟨pal, wc, minL, maxL, cc⟩

/-- `parse_nl_query` from `strings/utils.py`. -/
def parse_nl_query (q : List Char) : Except ParseErr Filters :=
  if (pyStrip q).isEmpty then .error .emptyQuery
  else
    let f := extractFilters (pyStrip (pyLowerL q))
    if f = emptyFilters then .error (.noMatch suggestions) else .ok f

/-! ### SHA-256 (for `sha256_hex` / the `sha256_hash` property)

A direct translation of FIPS 180-4 over `Nat`, truncating to 32 bits with
`% 2^32` where the algorithm works on machine words. -/

/-- Truncate to a 32-bit word. -/
def w32 (n : Nat) : Nat := n % 4294967296

/-- 32-bit right rotation. -/
def rotr32 (n x : Nat) : Nat := w32 ((x >>> n) ||| (x <<< (32 - n)))

/-- UTF-8 encoding of one character (Python `str.encode('utf-8')`). -/
def utf8Bytes (c : Char) : List Nat :=
  let n := c.toNat
  if n < 128 then [n]
  else if n < 2048 then
    [192 ||| (n >>> 6), 128 ||| (n &&& 63)]
  else if n < 65536 then
    [224 ||| (n >>> 12), 128 ||| ((n >>> 6) &&& 63), 128 ||| (n &&& 63)]
  else
    [240 ||| (n >>> 18), 128 ||| ((n >>> 12) &&& 63),
     128 ||| ((n >>> 6) &&& 63), 128 ||| (n &&& 63)]

/-- Split a list into chunks of `n` elements (`n > 0`). -/
def chunksOf : Nat → List α → List (List α)
  | _, [] => []
  | 0, _ :: _ => []
  | n + 1, c :: t =>
    (c :: t).take (n + 1) :: chunksOf (n + 1) ((c :: t).drop (n + 1))
termination_by _ l => l.length
decreasing_by
  simp only [List.length_drop, List.length_cons]
  omega

/-- SHA-256 message padding: `0x80`, zeros to 56 mod 64, 64-bit length. -/
def sha256Pad (msg : List Nat) : List Nat :=
  let bitLen := 8 * msg.length
  let z := (120 - ((msg.length + 1) % 64)) % 64
  msg ++ [128] ++ List.replicate z 0 ++
    (List.range 8).map (fun i => (bitLen >>> (8 * (7 - i))) &&& 255)

/-- Big-endian 32-bit words from bytes. -/
def bytesToWords (l : List Nat) : List Nat :=
  (chunksOf 4 l).map (fun b => b.foldl (fun a x => a * 256 + x) 0)

/-- The SHA-256 round constants (FIPS 180-4 §4.2.2, written in decimal). -/
def shaK : List Nat :=
  [ 1116352408, 1899447441, 3049323471, 3921009573, 961987163,
    1508970993, 2453635748, 2870763221, 3624381080, 310598401,
    607225278, 1426881987, 1925078388, 2162078206, 2614888103,
    3248222580, 3835390401, 4022224774, 264347078, 604807628,
    770255983, 1249150122, 1555081692, 1996064986, 2554220882,
    2821834349, 2952996808, 3210313671, 3336571891, 3584528711,
    113926993, 338241895, 666307205, 773529912, 1294757372,
    1396182291, 1695183700, 1986661051, 2177026350, 2456956037,
    2730485921, 2820302411, 3259730800, 3345764771, 3516065817,
    3600352804, 4094571909, 275423344, 430227734, 506948616,
    659060556, 883997877, 958139571, 1322822218, 1537002063,
    1747873779, 1955562222, 2024104815, 2227730452, 2361852424,
    2428436474, 2756734187, 3204031479, 3329325298 ]

/-- The SHA-256 initial hash value (FIPS 180-4 §5.3.3, in decimal). -/
def shaH0 : List Nat :=
  [ 1779033703, 3144134277, 1013904242, 2773480762,
    1359893119, 2600822924, 528734635, 1541459225 ]

/-- Extend 16 message-schedule words to 64. -/
def extendW (block : List Nat) : List Nat :=
  (List.range 48).foldl
    (fun acc _ =>
      let i := acc.length
      let x15 := acc.getD (i - 15) 0
      let x2 := acc.getD (i - 2) 0
      let s0 := rotr32 7 x15 ^^^ rotr32 18 x15 ^^^ (x15 >>> 3)
      let s1 := rotr32 17 x2 ^^^ rotr32 19 x2 ^^^ (x2 >>> 10)
      acc ++ [w32 (acc.getD (i - 16) 0 + s0 + acc.getD (i - 7) 0 + s1)])
    block

/-- One SHA-256 compression round. -/
def shaRound (w : List Nat) (st : List Nat) (i : Nat) : List Nat :=
  let a := st.getD 0 0
  let b := st.getD 1 0
  let c := st.getD 2 0
  let d := st.getD 3 0
  let e := st.getD 4 0
  let f := st.getD 5 0
  let g := st.getD 6 0
  let hh := st.getD 7 0
  let s1 := rotr32 6 e ^^^ rotr32 11 e ^^^ rotr32 25 e
  let ch := (e &&& f) ^^^ ((e ^^^ 4294967295) &&& g)
  let temp1 := w32 (hh + s1 + ch + shaK.getD i 0 + w.getD i 0)
  let s0 := rotr32 2 a ^^^ rotr32 13 a ^^^ rotr32 22 a
  let maj := (a &&& b) ^^^ (a &&& c) ^^^ (b &&& c)
  let temp2 := w32 (s0 + maj)
  [w32 (temp1 + temp2), a, b, c, w32 (d + temp1), e, f, g]

/-- Compress one 16-word block into the running hash state. -/
def compressBlock (h : List Nat) (block : List Nat) : List Nat :=
  let w := extendW block
  let fin := (List.range 64).foldl (shaRound w) h
  List.zipWith (fun x y => w32 (x + y)) h fin

/-- SHA-256 of a byte sequence: eight 32-bit words. -/
def sha256Words (msg : List Nat) : List Nat :=
  (chunksOf 16 (bytesToWords (sha256Pad msg))).foldl compressBlock shaH0

/-- One lowercase hex digit. -/
def hexDigit (d : Nat) : Char :=
  if d < 10 then Char.ofNat (48 + d) else Char.ofNat (87 + d)

/-- Eight lowercase hex digits of a 32-bit word, big-endian. -/
def hex8 (n : Nat) : List Char :=
  (List.range 8).map (fun i => hexDigit ((n >>> (4 * (7 - i))) &&& 15))

/-- `hashlib.sha256(s.encode('utf-8')).hexdigest()`. -/
def sha256Hex (s : List Char) : String :=
  String.mk ((sha256Words (s.flatMap utf8Bytes)).flatMap hex8)

/-! ### `compute_properties` -/

/-- One step of the frequency-map loop: `freq_map[char] += 1` when the key is
present, `freq_map[char] = 1` otherwise.  The Python dict keeps first-insertion
order, so it is an association list here. -/
def bump (m : List (Char × Nat)) (c : Char) : List (Char × Nat) :=
  if m.any (fun p => p.1 == c) then
    m.map (fun p => if p.1 == c then (p.1, p.2 + 1) else p)
  else
    m ++ [(c, 1)]

/-- The `for char in s` frequency-map loop of `compute_properties`. -/
def freqOf (l : List Char) : List (Char × Nat) := l.foldl bump []

/-- The analysis record built by `compute_properties`. -/
structure AnalysisProperties where
  length : Nat
  is_palindrome : Bool
  unique_characters : Nat
  word_count : Nat
  sha256_hash : String
  character_frequency_map : List (Char × Nat)

/-- `''.join(s.lower().split())`: the palindrome canonicalisation. -/
def strippedOf (l : List Char) : List Char := (pySplit (pyLowerL l)).flatten

/-- `compute_properties` from `strings/utils.py`.  The non-string input branch
is unrepresentable here; the empty/whitespace-only branch raises `ValueError`
(whose message the function re-wraps). -/
def computeProperties (s : List Char) : Except String AnalysisProperties :=
  if (pyStrip s).isEmpty then
    .error "Error computing string properties: Input string cannot be empty or whitespace only"
  else
    let stripped := strippedOf s
    .ok
      { length := s.length
        is_palindrome := stripped == stripped.reverse
        unique_characters := s.dedup.length  -- len(sorted(set(s)))
        word_count := ((pySplit s).filter (fun w => !w.isEmpty)).length
        sha256_hash := sha256Hex s
        character_frequency_map := freqOf s }

/-! ### The two listing views (`strings/views.py`)

Stored records are rows of `AnalyzedString`: the original value plus the
persisted `properties` JSON dict.  Legacy rows may lack analysis keys, so the
fields the filters read (`properties.get(...)`) are optional here. -/

/-- The slice of a stored `properties` dict that the filters read. -/
structure StoredProps where
  length : Option Int
  is_palindrome : Option Bool
  word_count : Option Int
deriving DecidableEq

/-- A stored `AnalyzedString` row, as seen by the filter code. -/
structure Rec where
  value : List Char
  props : StoredProps
deriving DecidableEq

/-- `obj.properties.get('is_palindrome') == b` (`None == b` is false). -/
def palB (b : Bool) (r : Rec) : Bool := r.props.is_palindrome == some b

/-- `obj.properties.get('length', 0) >= m`. -/
def minB (m : Int) (r : Rec) : Bool := r.props.length.getD 0 ≥ m

/-- `obj.properties.get('length', 0) <= M`. -/
def maxB (m : Int) (r : Rec) : Bool := r.props.length.getD 0 ≤ m

/-- `obj.properties.get('word_count') == w` (`None == w` is false). -/
def wcB (w : Int) (r : Rec) : Bool := r.props.word_count == some w

/-- `c in obj.value` for the (single-character) filter string `c`. -/
def ccB (c : String) (r : Rec) : Bool := pyInB c.data r.value

/-- The 400-responses the two listing views can produce before returning a
result list.  Constructors for the two views are distinct because their
`detail` strings are distinct. -/
inductive ApiErr where
  | minNegS : ApiErr         -- "min_length must be non-negative"
  | maxNegS : ApiErr         -- "max_length must be non-negative"
  | minGtMaxS : ApiErr       -- "min_length cannot be greater than max_length"
  | wcNegS : ApiErr          -- "word_count must be non-negative"
  | ccNotSingleS : ApiErr    -- "contains_character must be a single character"
  | unparseable : ParseErr → ApiErr  -- NL view: parse error plus suggestions
  | emptyParse : ApiErr      -- NL view: "Could not understand the query"
  | wcInvalidN : ApiErr      -- "Invalid word count value"
  | minInvalidN : ApiErr     -- "Invalid minimum length value"
  | maxInvalidN : ApiErr     -- "Invalid maximum length value"
  | ccNotSingleN : ApiErr    -- "Character filter must be a single character"
  | minGtMaxN : ApiErr       -- "Minimum length cannot be greater than maximum length"
deriving DecidableEq

/-- Early-return sequencing of the view code: a 400 response aborts the
handler, otherwise the running record list continues through the pipeline. -/
def exBind (x : Except ApiErr (List Rec))
    (f : List Rec → Except ApiErr (List Rec)) : Except ApiErr (List Rec) :=
  match x with
  | .error e => .error e
  | .ok l => f l

/-- `StringsView.get`: the `is_palindrome` filter (its string-level
`'true'/'false'` validation lives in the transport layer of the model). -/
def stepPal (p : Filters) (qs : List Rec) : List Rec :=
  match p.is_palindrome with
  | none => qs
  | some b => qs.filter (palB b)

/-- `StringsView.get`: `min_length` validation and filter. -/
def stepMinS (p : Filters) (qs : List Rec) : Except ApiErr (List Rec) :=
  match p.min_length with
  | none => .ok qs
  | some m => if m < 0 then .error .minNegS else .ok (qs.filter (minB m))

/-- `StringsView.get`: `max_length` validation and filter. -/
def stepMaxS (p : Filters) (qs : List Rec) : Except ApiErr (List Rec) :=
  match p.max_length with
  | none => .ok qs
  | some m => if m < 0 then .error .maxNegS else .ok (qs.filter (maxB m))

/-- `StringsView.get`: the `min_length > max_length` constraint check, placed
between the length filters and the word-count filter as in the source. -/
def stepMinMaxS (p : Filters) (qs : List Rec) : Except ApiErr (List Rec) :=
  match p.min_length, p.max_length with
  | some m, some M => if m > M then .error .minGtMaxS else .ok qs
  | _, _ => .ok qs

/-- `StringsView.get`: `word_count` validation and filter. -/
def stepWcS (p : Filters) (qs : List Rec) : Except ApiErr (List Rec) :=
  match p.word_count with
  | none => .ok qs
  | some w => if w < 0 then .error .wcNegS else .ok (qs.filter (wcB w))

/-- `StringsView.get`: `contains_character` validation and filter. -/
def stepCcS (p : Filters) (qs : List Rec) : Except ApiErr (List Rec) :=
  match p.contains_character with
  | none => .ok qs
  | some c =>
    if c.data.length ≠ 1 then .error .ccNotSingleS else .ok (qs.filter (ccB c))

/-- The filtering pipeline of `StringsView.get` (lines 80-182 of
`strings/views.py`), applied to an already-decoded filter predicate:
palindrome, min length, max length, the min/max ordering check, word count,
contains character — in source order. -/
def stringsViewFilter (p : Filters) (rs : List Rec) : Except ApiErr (List Rec) :=
  exBind (stepMinS p (stepPal p rs)) fun qs1 =>
    exBind (stepMaxS p qs1) fun qs2 =>
      exBind (stepMinMaxS p qs2) fun qs3 =>
        exBind (stepWcS p qs3) fun qs4 =>
          stepCcS p qs4

/-- `NaturalLanguageFilterView.get`: `word_count` validation and filter
(the parsed value is always an `int` here, so only the sign check remains). -/
def stepWcN (p : Filters) (qs : List Rec) : Except ApiErr (List Rec) :=
  match p.word_count with
  | none => .ok qs
  | some w => if w < 0 then .error .wcInvalidN else .ok (qs.filter (wcB w))

/-- `NaturalLanguageFilterView.get`: `min_length` validation and filter. -/
def stepMinN (p : Filters) (qs : List Rec) : Except ApiErr (List Rec) :=
  match p.min_length with
  | none => .ok qs
  | some m => if m < 0 then .error .minInvalidN else .ok (qs.filter (minB m))

/-- `NaturalLanguageFilterView.get`: `max_length` validation and filter. -/
def stepMaxN (p : Filters) (qs : List Rec) : Except ApiErr (List Rec) :=
  match p.max_length with
  | none => .ok qs
  | some m => if m < 0 then .error .maxInvalidN else .ok (qs.filter (maxB m))

/-- `NaturalLanguageFilterView.get`: `contains_character` validation and
filter. -/
def stepCcN (p : Filters) (qs : List Rec) : Except ApiErr (List Rec) :=
  match p.contains_character with
  | none => .ok qs
  | some c =>
    if c.data.length ≠ 1 then .error .ccNotSingleN else .ok (qs.filter (ccB c))

/-- `NaturalLanguageFilterView.get`: the `min_length > max_length` check,
which this view performs after all filtering. -/
def stepMinMaxN (p : Filters) (qs : List Rec) : Except ApiErr (List Rec) :=
  match p.min_length, p.max_length with
  | some m, some M => if m > M then .error .minGtMaxN else .ok qs
  | _, _ => .ok qs

/-- The filtering pipeline of `NaturalLanguageFilterView.get` (lines 303-348):
palindrome, word count, min length, max length, contains character, then the
min/max ordering check — in source order (note the order differs from
`StringsView.get`). -/
def nlApplyFilters (p : Filters) (rs : List Rec) : Except ApiErr (List Rec) :=
  exBind (stepWcN p (stepPal p rs)) fun qs1 =>
    exBind (stepMinN p qs1) fun qs2 =>
      exBind (stepMaxN p qs2) fun qs3 =>
        exBind (stepCcN p qs3) fun qs4 =>
          stepMinMaxN p qs4

/-- `NaturalLanguageFilterView.get` end to end: parse the query (a parse
failure returns a 400 carrying the suggestions), re-check non-emptiness of the
parsed dict, then run the filter pipeline. -/
def nlGet (q : List Char) (rs : List Rec) : Except ApiErr (List Rec) :=
  match parse_nl_query q with
  | .error e => .error (.unparseable e)
  | .ok p =>
    if p = emptyFilters then .error .emptyParse
    else nlApplyFilters p rs

/-- The predicate-validity checks shared by both views (spec §4.3): numeric
fields non-negative, `contains_character` a single character, and
`min_length <= max_length` when both bounds are present. -/
def validPred (p : Filters) : Bool :=
  (match p.min_length with | some m => decide (0 ≤ m) | none => true) &&
  (match p.max_length with | some m => decide (0 ≤ m) | none => true) &&
  (match p.word_count with | some w => decide (0 ≤ w) | none => true) &&
  (match p.contains_character with
   | some c => decide (c.data.length = 1) | none => true) &&
  (match p.min_length, p.max_length with
   | some m, some M => decide (m ≤ M) | _, _ => true)

/-- Pure (validation-free) min-length step, the common denominator of the two
views' min-length filters. -/
def stepMinP (p : Filters) (qs : List Rec) : List Rec :=
  match p.min_length with
  | none => qs
  | some m => qs.filter (minB m)

/-- Pure max-length step. -/
def stepMaxP (p : Filters) (qs : List Rec) : List Rec :=
  match p.max_length with
  | none => qs
  | some m => qs.filter (maxB m)

/-- Pure word-count step. -/
def stepWcP (p : Filters) (qs : List Rec) : List Rec :=
  match p.word_count with
  | none => qs
  | some w => qs.filter (wcB w)

/-- Pure contains-character step. -/
def stepCcP (p : Filters) (qs : List Rec) : List Rec :=
  match p.contains_character with
  | none => qs
  | some c => qs.filter (ccB c)

/-- A legacy row whose `properties` dict has none of the analysis keys. -/
def legacyRec : Rec := ⟨"legacy".data, ⟨none, none, none⟩⟩

/-- A fully-populated sample row (the analysis of `"racecar"`). -/
def sampleRec : Rec := ⟨"racecar".data, ⟨some 7, some true, some 1⟩⟩

/-- Spec-side quantity for the frequency-map invariant: the sum of the
occurrence counts. -/
def sumVals (m : List (Char × Nat)) : Nat := (m.map Prod.snd).sum

/-- The keys of a frequency map, in order. -/
def keysOf (m : List (Char × Nat)) : List Char := m.map Prod.fst

/-- Spec-side palindrome canonicalisation, as the spec words it: lower-case,
then remove every whitespace character. -/
def cleanedSpec (l : List Char) : List Char :=
  (pyLowerL l).filter (fun c => !pyIsSpace c)

/-! ### Lemmas about the Python string primitives -/

theorem pyStrip_eq_nil_iff (l : List Char) :
    pyStrip l = [] ↔ ∀ c ∈ l, pyIsSpace c = true := by
  unfold pyStrip
  rw [List.reverse_eq_nil_iff, List.dropWhile_eq_nil_iff]
  constructor
  · intro h c hc
    have hsplit : l.takeWhile pyIsSpace ++ l.dropWhile pyIsSpace = l :=
      List.takeWhile_append_dropWhile pyIsSpace l
    rw [← hsplit] at hc
    rcases List.mem_append.mp hc with hm | hm
    · exact List.mem_takeWhile_imp hm
    · exact h c (List.mem_reverse.mpr hm)
  · intro h c hc
    exact h c (List.dropWhile_subset _ (List.mem_reverse.mp hc))

theorem toLowerPy_of_space {c : Char} (h : pyIsSpace c = true) :
    toLowerPy c = c := by
  simp only [pyIsSpace, Bool.or_eq_true, beq_iff_eq] at h
  rcases h with ((((h | h) | h) | h) | h) | h <;> subst h <;> rfl

theorem pyStrip_lower_eq_nil {l : List Char} (h : pyStrip l = []) :
    pyStrip (pyLowerL l) = [] := by
  rw [pyStrip_eq_nil_iff] at h ⊢
  intro c hc
  obtain ⟨a, ha, rfl⟩ := List.mem_map.mp hc
  rw [toLowerPy_of_space (h a ha)]
  exact h a ha

theorem splitAux_flatten (l acc : List Char) :
    (splitAux l acc).flatten = acc.reverse ++ l.filter (fun c => !pyIsSpace c) := by
  induction l generalizing acc with
  | nil =>
    by_cases h : acc = []
    · subst h; simp [splitAux]
    · simp [splitAux, List.isEmpty_iff, h]
  | cons c t ih =>
    by_cases hs : pyIsSpace c
    · by_cases h : acc = []
      · subst h; simp [splitAux, hs, ih, List.filter_cons]
      · simp [splitAux, hs, List.isEmpty_iff, h, ih, List.filter_cons]
    · have hs2 : pyIsSpace c = false := by
        cases hps : pyIsSpace c
        · rfl
        · exact absurd hps hs
      simp [splitAux, hs2, ih, List.filter_cons]

/-- `''.join(s.lower().split())` removes exactly the whitespace characters. -/
theorem strippedOf_eq_cleanedSpec (l : List Char) :
    strippedOf l = cleanedSpec l := by
  simpa [strippedOf, pySplit, cleanedSpec] using splitAux_flatten (pyLowerL l) []

/-! ### Lemmas about the frequency map -/

theorem sumVals_map_inc (m : List (Char × Nat)) (c : Char) :
    sumVals (m.map (fun p => if p.1 == c then (p.1, p.2 + 1) else p)) =
      sumVals m + m.countP (fun p => p.1 == c) := by
  induction m with
  | nil => rfl
  | cons a t ih =>
    by_cases h : a.1 = c
    · simp [sumVals, List.countP_cons, h, List.map_cons] at ih ⊢
      omega
    · simp [sumVals, List.countP_cons, h, List.map_cons] at ih ⊢
      omega

theorem countP_key_eq_one {m : List (Char × Nat)} {c : Char}
    (hn : (keysOf m).Nodup) (hm : m.any (fun p => p.1 == c) = true) :
    m.countP (fun p => p.1 == c) = 1 := by
  induction m with
  | nil => simp at hm
  | cons a t ih =>
    simp only [keysOf, List.map_cons, List.nodup_cons] at hn
    by_cases h : a.1 = c
    · have ht : t.countP (fun p => p.1 == c) = 0 := by
        rw [List.countP_eq_zero]
        intro p hp
        simp only [beq_iff_eq]
        intro hpc
        exact hn.1 (by rw [← h, ← hpc] at *; exact List.mem_map_of_mem Prod.fst hp)
      simp [List.countP_cons, h, ht]
    · have hm2 : t.any (fun p => p.1 == c) = true := by
        simp only [List.any_cons, Bool.or_eq_true, beq_iff_eq] at hm
        rcases hm with hm | hm
        · exact absurd hm h
        · exact hm
      simp [List.countP_cons, h, ih hn.2 hm2]

theorem keysOf_bump (m : List (Char × Nat)) (c : Char) :
    keysOf (bump m c) =
      if m.any (fun p => p.1 == c) then keysOf m else keysOf m ++ [c] := by
  by_cases h : m.any (fun p => p.1 == c) = true
  · simp only [bump, h, if_true, keysOf, List.map_map]
    congr 1
    funext p
    by_cases hp : p.1 = c <;> simp [hp]
  · simp only [Bool.not_eq_true] at h
    simp [bump, keysOf, h]

theorem bump_invariant (m : List (Char × Nat)) (c : Char)
    (hn : (keysOf m).Nodup) :
    (keysOf (bump m c)).Nodup ∧
      sumVals (bump m c) = sumVals m + 1 ∧
      (∀ a, a ∈ keysOf (bump m c) ↔ a ∈ keysOf m ∨ a = c) := by
  by_cases h : m.any (fun p => p.1 == c) = true
  · have hc : c ∈ keysOf m := by
      rw [List.any_eq_true] at h
      obtain ⟨p, hp, hpc⟩ := h
      rw [beq_iff_eq] at hpc
      exact hpc ▸ List.mem_map_of_mem Prod.fst hp
    refine ⟨?_, ?_, ?_⟩
    · rw [keysOf_bump, if_pos h]; exact hn
    · simp only [bump, h, if_true]
      rw [sumVals_map_inc, countP_key_eq_one hn h]
    · intro a
      rw [keysOf_bump, if_pos h]
      constructor
      · exact Or.inl
      · rintro (ha | rfl)
        · exact ha
        · exact hc
  · have hc : c ∉ keysOf m := by
      intro hc
      obtain ⟨p, hp, hpc⟩ := List.mem_map.mp hc
      have : m.any (fun p => p.1 == c) = true :=
        List.any_eq_true.mpr ⟨p, hp, beq_iff_eq.mpr hpc⟩
      exact absurd this h
    rw [Bool.not_eq_true] at h
    refine ⟨?_, ?_, ?_⟩
    · rw [keysOf_bump, h, if_neg (by simp)]
      simpa [List.nodup_append] using ⟨hn, fun ha => hc ha⟩
    · simp [bump, h, sumVals]
    · intro a
      rw [keysOf_bump, h, if_neg (by simp)]
      simp

theorem freq_foldl_invariant (l : List Char) :
    ∀ m : List (Char × Nat), (keysOf m).Nodup →
      (keysOf (l.foldl bump m)).Nodup ∧
        sumVals (l.foldl bump m) = sumVals m + l.length ∧
        (∀ a, a ∈ keysOf (l.foldl bump m) ↔ a ∈ keysOf m ∨ a ∈ l) := by
  induction l with
  | nil => intro m hn; simp [hn]
  | cons c t ih =>
    intro m hn
    obtain ⟨hbn, hbs, hbk⟩ := bump_invariant m c hn
    obtain ⟨h1, h2, h3⟩ := ih (bump m c) hbn
    simp only [List.foldl_cons]
    refine ⟨h1, ?_, ?_⟩
    · rw [h2, hbs]; simp [Nat.add_assoc, Nat.add_comm 1]
    · intro a
      rw [h3 a, hbk a]
      simp only [List.mem_cons]
      tauto

theorem freqOf_nodup_keys (l : List Char) : (keysOf (freqOf l)).Nodup :=
  (freq_foldl_invariant l [] (by simp [keysOf])).1

theorem sumVals_freqOf (l : List Char) : sumVals (freqOf l) = l.length := by
  have := (freq_foldl_invariant l [] (by simp [keysOf])).2.1
  simpa [sumVals] using this

theorem mem_keysOf_freqOf (l : List Char) (a : Char) :
    a ∈ keysOf (freqOf l) ↔ a ∈ l := by
  have := (freq_foldl_invariant l [] (by simp [keysOf])).2.2 a
  simpa [keysOf] using this

theorem length_freqOf (l : List Char) : (freqOf l).length = l.dedup.length := by
  have h1 : (freqOf l).length = (keysOf (freqOf l)).length := by
    simp [keysOf]
  rw [h1]
  have h2 : (keysOf (freqOf l)).toFinset = l.dedup.toFinset := by
    ext a
    simp [List.mem_toFinset, mem_keysOf_freqOf, List.mem_dedup]
  calc (keysOf (freqOf l)).length
      = (keysOf (freqOf l)).toFinset.card :=
        (List.toFinset_card_of_nodup (freqOf_nodup_keys l)).symm
    _ = l.dedup.toFinset.card := by rw [h2]
    _ = l.dedup.length := List.toFinset_card_of_nodup (List.nodup_dedup l)

/-! ### Lemmas about the filter pipelines -/

theorem validPred_parts {p : Filters} (h : validPred p = true) :
    (∀ m, p.min_length = some m → 0 ≤ m) ∧
    (∀ m, p.max_length = some m → 0 ≤ m) ∧
    (∀ w, p.word_count = some w → 0 ≤ w) ∧
    (∀ c, p.contains_character = some c → c.data.length = 1) ∧
    (∀ m M, p.min_length = some m → p.max_length = some M → m ≤ M) := by
  simp only [validPred, Bool.and_eq_true] at h
  obtain ⟨⟨⟨⟨h1, h2⟩, h3⟩, h4⟩, h5⟩ := h
  refine ⟨?_, ?_, ?_, ?_, ?_⟩
  · intro m hm; rw [hm] at h1; exact of_decide_eq_true h1
  · intro m hm; rw [hm] at h2; exact of_decide_eq_true h2
  · intro w hw; rw [hw] at h3; exact of_decide_eq_true h3
  · intro c hc; rw [hc] at h4; exact of_decide_eq_true h4
  · intro m M hm hM; rw [hm, hM] at h5; exact of_decide_eq_true h5

theorem stepMinS_of_valid {p : Filters} (h : validPred p = true)
    (qs : List Rec) : stepMinS p qs = .ok (stepMinP p qs) := by
  have hv := (validPred_parts h).1
  unfold stepMinS stepMinP
  cases hm : p.min_length with
  | none => rfl
  | some m =>
    have : ¬m < 0 := by have := hv m hm; omega
    simp [this]

theorem stepMaxS_of_valid {p : Filters} (h : validPred p = true)
    (qs : List Rec) : stepMaxS p qs = .ok (stepMaxP p qs) := by
  have hv := (validPred_parts h).2.1
  unfold stepMaxS stepMaxP
  cases hm : p.max_length with
  | none => rfl
  | some m =>
    have : ¬m < 0 := by have := hv m hm; omega
    simp [this]

theorem stepWcS_of_valid {p : Filters} (h : validPred p = true)
    (qs : List Rec) : stepWcS p qs = .ok (stepWcP p qs) := by
  have hv := (validPred_parts h).2.2.1
  unfold stepWcS stepWcP
  cases hw : p.word_count with
  | none => rfl
  | some w =>
    have : ¬w < 0 := by have := hv w hw; omega
    simp [this]

theorem stepCcS_of_valid {p : Filters} (h : validPred p = true)
    (qs : List Rec) : stepCcS p qs = .ok (stepCcP p qs) := by
  have hv := (validPred_parts h).2.2.2.1
  unfold stepCcS stepCcP
  cases hc : p.contains_character with
  | none => rfl
  | some c => simp [hv c hc]

theorem stepMinMaxS_of_valid {p : Filters} (h : validPred p = true)
    (qs : List Rec) : stepMinMaxS p qs = .ok qs := by
  have hv := (validPred_parts h).2.2.2.2
  unfold stepMinMaxS
  cases hm : p.min_length with
  | none => rfl
  | some m =>
    cases hM : p.max_length with
    | none => rfl
    | some M =>
      have : ¬m > M := by have := hv m M hm hM; omega
      simp [this]

theorem stepWcN_of_valid {p : Filters} (h : validPred p = true)
    (qs : List Rec) : stepWcN p qs = .ok (stepWcP p qs) := by
  have hv := (validPred_parts h).2.2.1
  unfold stepWcN stepWcP
  cases hw : p.word_count with
  | none => rfl
  | some w =>
    have : ¬w < 0 := by have := hv w hw; omega
    simp [this]

theorem stepMinN_of_valid {p : Filters} (h : validPred p = true)
    (qs : List Rec) : stepMinN p qs = .ok (stepMinP p qs) := by
  have hv := (validPred_parts h).1
  unfold stepMinN stepMinP
  cases hm : p.min_length with
  | none => rfl
  | some m =>
    have : ¬m < 0 := by have := hv m hm; omega
    simp [this]

theorem stepMaxN_of_valid {p : Filters} (h : validPred p = true)
    (qs : List Rec) : stepMaxN p qs = .ok (stepMaxP p qs) := by
  have hv := (validPred_parts h).2.1
  unfold stepMaxN stepMaxP
  cases hm : p.max_length with
  | none => rfl
  | some m =>
    have : ¬m < 0 := by have := hv m hm; omega
    simp [this]

theorem stepCcN_of_valid {p : Filters} (h : validPred p = true)
    (qs : List Rec) : stepCcN p qs = .ok (stepCcP p qs) := by
  have hv := (validPred_parts h).2.2.2.1
  unfold stepCcN stepCcP
  cases hc : p.contains_character with
  | none => rfl
  | some c => simp [hv c hc]

theorem stepMinMaxN_of_valid {p : Filters} (h : validPred p = true)
    (qs : List Rec) : stepMinMaxN p qs = .ok qs := by
  have hv := (validPred_parts h).2.2.2.2
  unfold stepMinMaxN
  cases hm : p.min_length with
  | none => rfl
  | some m =>
    cases hM : p.max_length with
    | none => rfl
    | some M =>
      have : ¬m > M := by have := hv m M hm hM; omega
      simp [this]

theorem stringsViewFilter_of_valid {p : Filters} (h : validPred p = true)
    (rs : List Rec) :
    stringsViewFilter p rs =
      .ok (stepCcP p (stepWcP p (stepMaxP p (stepMinP p (stepPal p rs))))) := by
  rw [stringsViewFilter, stepMinS_of_valid h]
  simp only [exBind]
  rw [stepMaxS_of_valid h]
  simp only [exBind]
  rw [stepMinMaxS_of_valid h]
  simp only [exBind]
  rw [stepWcS_of_valid h]
  simp only [exBind]
  rw [stepCcS_of_valid h]

theorem nlApplyFilters_of_valid {p : Filters} (h : validPred p = true)
    (rs : List Rec) :
    nlApplyFilters p rs =
      .ok (stepCcP p (stepMaxP p (stepMinP p (stepWcP p (stepPal p rs))))) := by
  rw [nlApplyFilters, stepWcN_of_valid h]
  simp only [exBind]
  rw [stepMinN_of_valid h]
  simp only [exBind]
  rw [stepMaxN_of_valid h]
  simp only [exBind]
  rw [stepCcN_of_valid h]
  simp only [exBind]
  rw [stepMinMaxN_of_valid h]

theorem filter_comm_rec (f g : Rec → Bool) (l : List Rec) :
    (l.filter f).filter g = (l.filter g).filter f := by
  induction l with
  | nil => rfl
  | cons a t ih =>
    cases hf : f a <;> cases hg : g a <;>
      simp [List.filter_cons, hf, hg, ih]

theorem stepWcP_stepMinP_comm (p : Filters) (qs : List Rec) :
    stepWcP p (stepMinP p qs) = stepMinP p (stepWcP p qs) := by
  unfold stepWcP stepMinP
  cases p.word_count <;> cases p.min_length <;>
    first
    | rfl
    | exact filter_comm_rec _ _ qs

theorem stepWcP_stepMaxP_comm (p : Filters) (qs : List Rec) :
    stepWcP p (stepMaxP p qs) = stepMaxP p (stepWcP p qs) := by
  unfold stepWcP stepMaxP
  cases p.word_count <;> cases p.max_length <;>
    first
    | rfl
    | exact filter_comm_rec _ _ qs

/-- The two views filter in different clause orders, but the results agree. -/
theorem pipelines_agree (p : Filters) (rs : List Rec) :
    stepCcP p (stepMaxP p (stepMinP p (stepWcP p (stepPal p rs)))) =
      stepCcP p (stepWcP p (stepMaxP p (stepMinP p (stepPal p rs)))) := by
  rw [← stepWcP_stepMinP_comm, ← stepWcP_stepMaxP_comm]

theorem stepPal_sublist (p : Filters) (rs : List Rec) :
    (stepPal p rs).Sublist rs := by
  unfold stepPal
  cases p.is_palindrome with
  | none => exact List.Sublist.refl rs
  | some b => exact List.filter_sublist rs

theorem stepMinP_sublist (p : Filters) (qs : List Rec) :
    (stepMinP p qs).Sublist qs := by
  unfold stepMinP
  cases p.min_length with
  | none => exact List.Sublist.refl qs
  | some m => exact List.filter_sublist qs

theorem stepMaxP_sublist (p : Filters) (qs : List Rec) :
    (stepMaxP p qs).Sublist qs := by
  unfold stepMaxP
  cases p.max_length with
  | none => exact List.Sublist.refl qs
  | some m => exact List.filter_sublist qs

theorem stepWcP_sublist (p : Filters) (qs : List Rec) :
    (stepWcP p qs).Sublist qs := by
  unfold stepWcP
  cases p.word_count with
  | none => exact List.Sublist.refl qs
  | some w => exact List.filter_sublist qs

theorem stepCcP_sublist (p : Filters) (qs : List Rec) :
    (stepCcP p qs).Sublist qs := by
  unfold stepCcP
  cases p.contains_character with
  | none => exact List.Sublist.refl qs
  | some c => exact List.filter_sublist qs

/-! ### Lemmas about `parse_nl_query` -/

theorem parse_ok_ne_empty {q : List Char} {p : Filters}
    (h : parse_nl_query q = .ok p) : p ≠ emptyFilters := by
  unfold parse_nl_query at h
  by_cases he : (pyStrip q).isEmpty = true
  · rw [if_pos he] at h
    exact Except.noConfusion h
  · rw [if_neg he] at h
    by_cases hf : extractFilters (pyStrip (pyLowerL q)) = emptyFilters
    · rw [if_pos hf] at h
      exact Except.noConfusion h
    · rw [if_neg hf] at h
      rw [← Except.ok.inj h]
      exact hf

theorem parse_ok_eq_extract {q : List Char} {p : Filters}
    (h : parse_nl_query q = .ok p) :
    p = extractFilters (pyStrip (pyLowerL q)) := by
  unfold parse_nl_query at h
  by_cases he : (pyStrip q).isEmpty = true
  · rw [if_pos he] at h
    exact Except.noConfusion h
  · rw [if_neg he] at h
    by_cases hf : extractFilters (pyStrip (pyLowerL q)) = emptyFilters
    · rw [if_pos hf] at h
      exact Except.noConfusion h
    · rw [if_neg hf] at h
      exact (Except.ok.inj h).symm

/-! ## The claims -/

/-- Claim C1, as stated, is false: the source also runs the
contains-character matchers, and the pattern `with ... (\w)` captures the
`w` of "word", so the clause set is not the single `word_count` clause. -/
theorem claim1_counterexample :
    parse_nl_query "strings with word count 2".data ≠
      Except.ok ⟨none, some 2, none, none, none⟩ := by
  intro h
  have h1 : parse_nl_query "strings with word count 2".data =
      Except.ok ⟨none, some 2, none, none, some "w"⟩ := rfl
  have h2 : (⟨none, some 2, none, none, some "w"⟩ : Filters) =
      ⟨none, some 2, none, none, none⟩ :=
    Except.ok.inj (h1.symm.trans h)
  exact Option.noConfusion (Filters.mk.inj h2).2.2.2.2

/-- Claim C1 amended: `parse("strings with word count 2")` yields the
word-count clause `word_count = 2` together with a spurious
`contains_character = "w"` clause (the `with (\w)` pattern capturing the
first letter of "word"), and no other field. -/
theorem claim1_amended :
    parse_nl_query "strings with word count 2".data =
      Except.ok ⟨none, some 2, none, none, some "w"⟩ := rfl

/-- Claim C2, as stated, is false: the query "single word" contains the
phrase "single word", yet the parser recognises no clause at all and fails
with the unparseable-query error. -/
theorem claim2_counterexample :
    pyInB "single word".data (pyStrip (pyLowerL "single word".data)) = true ∧
    parse_nl_query "single word".data =
      Except.error (.noMatch suggestions) := ⟨rfl, rfl⟩

/-- Claim C2 amended: no "single word" phrasing exists in the parser; the
query "single word" fails with the unparseable-query error, and
`word_count = 1` arises only from the numeric phrasings such as "1 word". -/
theorem claim2_amended :
    parse_nl_query "single word".data =
      Except.error (.noMatch suggestions) ∧
    parse_nl_query "1 word".data =
      Except.ok ⟨none, some 1, none, none, none⟩ := ⟨rfl, rfl⟩

/-- Claim C3, as stated, is false: under the valid property-based predicate
`max_length = 5`, a record whose properties dict is missing every analysis
field is *kept* (its missing length reads as 0 via `.get('length', 0)`),
not excluded. -/
theorem claim3_counterexample :
    validPred ⟨none, none, none, some 5, none⟩ = true ∧
    stringsViewFilter ⟨none, none, none, some 5, none⟩ [legacyRec] =
      Except.ok [legacyRec] := ⟨by decide, rfl⟩

/-- Claim C3 amended: a record with no analysis fields is excluded by
`is_palindrome` and `word_count` clauses and by `min_length ≥ 1` clauses,
but any non-negative `max_length` clause keeps it (missing length reads as
0); and the listing operation itself still succeeds for every valid
predicate. -/
theorem claim3_amended :
    (∀ (b : Bool) (w m M : Int) (r : Rec), r.props = ⟨none, none, none⟩ →
      palB b r = false ∧ wcB w r = false ∧
      (1 ≤ m → minB m r = false) ∧ (0 ≤ M → maxB M r = true)) ∧
    (∀ (p : Filters) (rs : List Rec), validPred p = true →
      (stringsViewFilter p rs).isOk = true) := by
  constructor
  · intro b w m M r hr
    refine ⟨?_, ?_, ?_, ?_⟩
    · simp only [palB, hr]; rfl
    · simp only [wcB, hr]; rfl
    · intro hm
      simp only [minB, hr, Option.getD_none]
      exact decide_eq_false (by omega)
    · intro hM
      simp only [maxB, hr, Option.getD_none]
      exact decide_eq_true (by omega)
  · intro p rs hv
    rw [stringsViewFilter_of_valid hv]
    rfl

/-- Witness for the amended C3 at concrete inputs. -/
theorem claim3_witness :
    palB true legacyRec = false ∧ wcB 2 legacyRec = false ∧
    minB 1 legacyRec = false ∧ maxB 5 legacyRec = true ∧
    (stringsViewFilter ⟨none, none, some 1, none, none⟩ [legacyRec]).isOk =
      true := by
  obtain ⟨h1, h2, h3, h4⟩ := claim3_amended.1 true 2 1 5 legacyRec rfl
  exact ⟨h1, h2, h3 (by decide), h4 (by decide),
    claim3_amended.2 _ [legacyRec] (by decide)⟩

/-- Claim C4: whenever one of the min-length phrasings matches (the first
matching pattern capturing the digit run `ds`), the parser succeeds and
produces `min_length = N + 1` for the captured `N` (exclusive-of-N
phrasing). -/
theorem claim4_min_length_exclusive (q ds : List Char)
    (h : findFirstPat minPatterns (pyStrip (pyLowerL q)) = some ds) :
    ∃ p, parse_nl_query q = .ok p ∧
      p.min_length = some ((digitsToNat ds : Int) + 1) := by
  have hml : (extractFilters (pyStrip (pyLowerL q))).min_length =
      some ((digitsToNat ds : Int) + 1) := by
    simp only [extractFilters]
    rw [h]
    rfl
  have hne : ¬(pyStrip q).isEmpty = true := by
    intro he
    have h2 : pyStrip (pyLowerL q) = [] :=
      pyStrip_lower_eq_nil (List.isEmpty_iff.mp he)
    rw [h2, (rfl : findFirstPat minPatterns [] = none)] at h
    exact Option.noConfusion h
  have hfe : extractFilters (pyStrip (pyLowerL q)) ≠ emptyFilters := by
    intro he
    rw [he] at hml
    exact Option.noConfusion hml
  refine ⟨extractFilters (pyStrip (pyLowerL q)), ?_, hml⟩
  unfold parse_nl_query
  rw [if_neg hne, if_neg hfe]

/-- Witness for C4: "strings longer than 10 characters" captures 10 and
parses to `min_length = 11`. -/
theorem claim4_witness :
    findFirstPat minPatterns
      (pyStrip (pyLowerL "strings longer than 10 characters".data)) =
        some ['1', '0'] ∧
    ∃ p, parse_nl_query "strings longer than 10 characters".data = .ok p ∧
      p.min_length = some 11 :=
  ⟨rfl, claim4_min_length_exclusive
    "strings longer than 10 characters".data ['1', '0'] rfl⟩

/-- Claim C5: for non-whitespace-only input, `is_palindrome` holds exactly
when the lower-cased, whitespace-free form of the string equals its own
reverse. -/
theorem claim5_palindrome_iff (s : List Char) (h : pyStrip s ≠ []) :
    ∃ props, computeProperties s = .ok props ∧
      (props.is_palindrome = true ↔
        cleanedSpec s = (cleanedSpec s).reverse) := by
  have he : ¬(pyStrip s).isEmpty = true := by
    rw [List.isEmpty_iff]; exact h
  refine ⟨⟨s.length, strippedOf s == (strippedOf s).reverse, s.dedup.length,
    ((pySplit s).filter (fun w => !w.isEmpty)).length, sha256Hex s,
    freqOf s⟩, ?_, ?_⟩
  · unfold computeProperties
    rw [if_neg he]
  · show (strippedOf s == (strippedOf s).reverse) = true ↔ _
    rw [beq_iff_eq, strippedOf_eq_cleanedSpec]

/-- Witness for C5: the three literal cases — "racecar" is a palindrome,
"Hello World" is not, "A man a plan a canal Panama" is. -/
theorem claim5_witness :
    pyStrip "racecar".data ≠ [] ∧
    (∃ props, computeProperties "racecar".data = .ok props ∧
      (props.is_palindrome = true ↔
        cleanedSpec "racecar".data = (cleanedSpec "racecar".data).reverse)) ∧
    (match computeProperties "racecar".data with
      | .ok p => some p.is_palindrome
      | .error _ => none) = some true ∧
    (match computeProperties "Hello World".data with
      | .ok p => some p.is_palindrome
      | .error _ => none) = some false ∧
    (match computeProperties "A man a plan a canal Panama".data with
      | .ok p => some p.is_palindrome
      | .error _ => none) = some true :=
  ⟨by decide, claim5_palindrome_iff "racecar".data (by decide), rfl, rfl, rfl⟩

/-- Claim C6: the frequency-map values of a computed record sum to its
length, and its key count equals `unique_characters`. -/
theorem claim6_freq_invariants (s : List Char) (h : pyStrip s ≠ []) :
    ∃ props, computeProperties s = .ok props ∧
      sumVals props.character_frequency_map = props.length ∧
      props.character_frequency_map.length = props.unique_characters := by
  have he : ¬(pyStrip s).isEmpty = true := by
    rw [List.isEmpty_iff]; exact h
  refine ⟨⟨s.length, strippedOf s == (strippedOf s).reverse, s.dedup.length,
    ((pySplit s).filter (fun w => !w.isEmpty)).length, sha256Hex s,
    freqOf s⟩, ?_, ?_, ?_⟩
  · unfold computeProperties
    rw [if_neg he]
  · exact sumVals_freqOf s
  · exact length_freqOf s

/-- Witness for C6 at a concrete string. -/
theorem claim6_witness :
    pyStrip "Hello World".data ≠ [] ∧
    ∃ props, computeProperties "Hello World".data = .ok props ∧
      sumVals props.character_frequency_map = props.length ∧
      props.character_frequency_map.length = props.unique_characters :=
  ⟨by decide, claim6_freq_invariants "Hello World".data (by decide)⟩

/-- Claim C7: the structured listing is the identity on records when the
predicate has no fields set, and under any valid predicate it returns a
subsequence of its input (relative order preserved). -/
theorem claim7_identity_and_sublist :
    (∀ rs : List Rec, stringsViewFilter emptyFilters rs = .ok rs) ∧
    (∀ (p : Filters) (rs : List Rec), validPred p = true →
      ∃ l, stringsViewFilter p rs = .ok l ∧ l.Sublist rs) := by
  constructor
  · intro rs
    rfl
  · intro p rs hv
    refine ⟨_, stringsViewFilter_of_valid hv rs, ?_⟩
    exact ((((stepCcP_sublist p _).trans (stepWcP_sublist p _)).trans
      (stepMaxP_sublist p _)).trans (stepMinP_sublist p _)).trans
      (stepPal_sublist p rs)

/-- Witness for C7's sublist half at a concrete valid predicate. -/
theorem claim7_witness :
    validPred ⟨some true, none, some 2, none, none⟩ = true ∧
    ∃ l, stringsViewFilter ⟨some true, none, some 2, none, none⟩
        [sampleRec, legacyRec] = .ok l ∧
      l.Sublist [sampleRec, legacyRec] :=
  ⟨by decide, claim7_identity_and_sublist.2 _ _ (by decide)⟩

/-- Claim C8: the parser fails exactly on empty/whitespace-only queries and
on queries in which no clause is recognised; the no-clause failure carries
the fixed suggestion list; "invalid query format" is such a failure. -/
theorem claim8_unparseable_exactly :
    (∀ q : List Char,
      ((parse_nl_query q).isOk = false ↔
        (pyStrip q = [] ∨
          extractFilters (pyStrip (pyLowerL q)) = emptyFilters)) ∧
      (pyStrip q ≠ [] →
        extractFilters (pyStrip (pyLowerL q)) = emptyFilters →
        parse_nl_query q = .error (.noMatch suggestions))) ∧
    parse_nl_query "invalid query format".data =
      .error (.noMatch suggestions) := by
  constructor
  · intro q
    constructor
    · constructor
      · intro hfail
        unfold parse_nl_query at hfail
        by_cases he : (pyStrip q).isEmpty = true
        · exact Or.inl (List.isEmpty_iff.mp he)
        · rw [if_neg he] at hfail
          by_cases hf : extractFilters (pyStrip (pyLowerL q)) = emptyFilters
          · exact Or.inr hf
          · rw [if_neg hf] at hfail
            exact Bool.noConfusion hfail
      · intro hcase
        unfold parse_nl_query
        rcases hcase with hc | hc
        · rw [if_pos (List.isEmpty_iff.mpr hc)]
          rfl
        · by_cases he : (pyStrip q).isEmpty = true
          · rw [if_pos he]
            rfl
          · rw [if_neg he, if_pos hc]
            rfl
    · intro hne hf
      unfold parse_nl_query
      rw [if_neg (by rw [List.isEmpty_iff]; exact hne), if_pos hf]
  · rfl

/-- Witness for C8 at "invalid query format", discharging both hypotheses
of the no-clause branch. -/
theorem claim8_witness :
    parse_nl_query "invalid query format".data =
      .error (.noMatch suggestions) :=
  (claim8_unparseable_exactly.1 "invalid query format".data).2
    (by decide) (by decide)

/-- Claim C9: when a natural-language query parses to a valid predicate,
the natural-language endpoint and the structured endpoint return the same
records in the same order. -/
theorem claim9_nl_structured_agree (q : List Char) (p : Filters)
    (rs : List Rec) (hp : parse_nl_query q = .ok p)
    (hv : validPred p = true) :
    ∃ l, nlGet q rs = .ok l ∧ stringsViewFilter p rs = .ok l := by
  have hne := parse_ok_ne_empty hp
  refine ⟨stepCcP p (stepWcP p (stepMaxP p (stepMinP p (stepPal p rs)))),
    ?_, stringsViewFilter_of_valid hv rs⟩
  have hstep : nlGet q rs = nlApplyFilters p rs := by
    unfold nlGet
    rw [hp]
    exact if_neg hne
  rw [hstep, nlApplyFilters_of_valid hv, pipelines_agree]

/-- Witness for C9: the query "palindrome" against a two-record store. -/
theorem claim9_witness :
    parse_nl_query "palindrome".data =
      .ok ⟨some true, none, none, none, none⟩ ∧
    validPred ⟨some true, none, none, none, none⟩ = true ∧
    ∃ l, nlGet "palindrome".data [sampleRec, legacyRec] = .ok l ∧
      stringsViewFilter ⟨some true, none, none, none, none⟩
        [sampleRec, legacyRec] = .ok l :=
  ⟨rfl, by decide, claim9_nl_structured_agree _ _ _ rfl (by decide)⟩

/-- Claim C10: "strings shorter than 0 characters" parses to the negative
bound `max_length = -1`, and the natural-language endpoint then rejects the
parser's own predicate with the invalid-maximum-length error rather than
returning an empty result. -/
theorem claim10_negative_max :
    parse_nl_query "strings shorter than 0 characters".data =
      .ok ⟨none, none, none, some (-1), none⟩ ∧
    ∀ rs : List Rec,
      nlGet "strings shorter than 0 characters".data rs =
        .error .maxInvalidN :=
  ⟨rfl, fun _ => rfl⟩

end StringAnalyzer
